import Mathlib

/-!
# Verification of the circuit-family / result-decoding / statistics pipeline

This file is a shallow embedding of the statistics, decoding and circuit
generation logic of the `quantum-paradoxes` repository (the CHSH-Bell,
quantum-Zeno, GHZ and quantum-pigeonhole experiment scripts), together
with theorems settling the specification's claims about that logic.

Conventions:
* Python `dict[str, int]` histograms are modelled as association lists
  `List (String × ℕ)`; `dict.get` is first-match lookup with default `0`.
* Python integer/float division that can raise `ZeroDivisionError` is
  modelled as an `Option`-returning function, `none` exactly when the
  Python code raises.
* Real-valued angles and probabilities are modelled over `ℝ`; exact count
  statistics are modelled over `ℚ`.
-/

/-- A shot histogram: bitstring → occurrence count (Python `dict[str, int]`). -/
abbrev Histogram := List (String × ℕ)

/-- Python `counts.get(k, 0)`: first-match lookup with default `0`. -/
def histGet (counts : Histogram) (k : String) : ℕ :=
  ((counts.find? (fun e => e.1 == k)).map Prod.snd).getD 0

/-- Python `sum(counts.values())`. -/
def sumValues (counts : Histogram) : ℕ :=
  (counts.map Prod.snd).sum

/-- The `"counts" : ..., "total": sum(counts.values()) if counts else shots`
processing step shared by `run_experiment` in `chsh-bell/main.py` (lines
180–188) and its siblings: an empty decoded histogram is given the nominal
configured shot count as its total. -/
def histTotal (counts : Histogram) (shots : ℕ) : ℕ :=
  if counts.isEmpty then shots else sumValues counts

/-- `calculate_correlator` from `chsh-bell/main.py` (lines 138–147):
`E = ((count "00" + count "11") - (count "01" + count "10")) / total`.
Python raises `ZeroDivisionError` when `total = 0`, hence the `Option`. -/
def calculate_correlator (counts : Histogram) (total : ℕ) : Option ℚ :=
  if total = 0 then none
  else
    let same : ℤ := histGet counts "00" + histGet counts "11"
    let diff : ℤ := histGet counts "01" + histGet counts "10"
    some (((same - diff : ℤ) : ℚ) / (total : ℚ))

/-- The CHSH combination from `analyze_results` in `chsh-bell/main.py`
(line 251): `S = E(A0B0) + E(A0B1) + E(A1B0) - E(A1B1)`. -/
def chsh_S (e00 e01 e10 e11 : ℚ) : ℚ :=
  e00 + e01 + e10 - e11

/-- The violation test from `analyze_results` in `chsh-bell/main.py`
(lines 265, 272): the violation branch is taken iff `|S| > 2.0`. -/
def chsh_violated (S : ℚ) : Bool :=
  decide (|S| > 2)

/-- The A0B0 / A0B1 / A1B0 histogram of the CHSH end-to-end scenario. -/
def chshHistSame : Histogram := [("00", 500), ("11", 500)]

/-- The A1B1 histogram of the CHSH end-to-end scenario. -/
def chshHistDiff : Histogram := [("01", 500), ("10", 500)]

/-- C1: with the four setting-pair histograms `{"00":500,"11":500}` (for
A0B0, A0B1, A1B0) and `{"01":500,"10":500}` (for A1B1), each of total 1000,
the correlators are `1, 1, 1, -1`, the CHSH combination `S` is `4`, and the
classifier takes the violation-confirmed branch because `|S| > 2`. -/
theorem chsh_end_to_end_scenario :
    calculate_correlator chshHistSame 1000 = some 1 ∧
    calculate_correlator chshHistDiff 1000 = some (-1) ∧
    chsh_S 1 1 1 (-1) = 4 ∧
    chsh_violated (chsh_S 1 1 1 (-1)) = true := by
  have hs00 : histGet chshHistSame "00" = 500 := rfl
  have hs11 : histGet chshHistSame "11" = 500 := rfl
  have hs01 : histGet chshHistSame "01" = 0 := rfl
  have hs10 : histGet chshHistSame "10" = 0 := rfl
  have hd00 : histGet chshHistDiff "00" = 0 := rfl
  have hd11 : histGet chshHistDiff "11" = 0 := rfl
  have hd01 : histGet chshHistDiff "01" = 500 := rfl
  have hd10 : histGet chshHistDiff "10" = 500 := rfl
  refine ⟨?_, ?_, ?_, ?_⟩ <;>
    norm_num [calculate_correlator, chsh_S, chsh_violated,
      hs00, hs11, hs01, hs10, hd00, hd11, hd01, hd10]

/-! ## Quantum Zeno effect: theoretical predictor and circuit family -/

/-- `theoretical_zeno_probability` from `quantum-zeno-effect/main.py`
(lines 26–50): for `N = 0` the unobserved value `cos²(θ/2)`; otherwise
`angle_per_step = θ/N` and `(cos²(angle_per_step/2))^N`. -/
noncomputable def theoretical_zeno_probability (num_measurements : ℕ)
    (total_angle : ℝ) : ℝ :=
  if num_measurements = 0 then Real.cos (total_angle / 2) ^ 2
  else
    let angle_per_step := total_angle / num_measurements
    (Real.cos (angle_per_step / 2) ^ 2) ^ num_measurements

/-- C2: for every number of checkpoints `N` and total angle `θ`, the Zeno
theoretical predictor returns `cos²(θ/(2N))^N` when `N ≥ 1`, and returns
`cos²(θ/2)` in the unobserved case `N = 0`. -/
theorem zeno_predictor_formula (N : ℕ) (θ : ℝ) :
    (1 ≤ N → theoretical_zeno_probability N θ = (Real.cos (θ / (2 * N)) ^ 2) ^ N) ∧
    theoretical_zeno_probability 0 θ = Real.cos (θ / 2) ^ 2 := by
  constructor
  · intro hN
    have h0 : N ≠ 0 := Nat.one_le_iff_ne_zero.mp hN
    have harg : θ / N / 2 = θ / (2 * N) := by rw [div_div, mul_comm]
    simp only [theoretical_zeno_probability, h0, if_false, harg]
  · simp [theoretical_zeno_probability]

/-- Witness for C2 at `N = 3`, `θ = 1`. -/
theorem zeno_predictor_formula_witness :
    theoretical_zeno_probability 3 1 =
      (Real.cos (1 / (2 * ((3 : ℕ) : ℝ))) ^ 2) ^ (3 : ℕ) :=
  (zeno_predictor_formula 3 1).1 (by norm_num)

/-- One circuit instruction, as emitted by the Zeno circuit generators
(`qc.ry`, `qc.measure`, `qc.reset`, `qc.barrier`). -/
inductive Instr : Type
  | ry (angle : ℝ) (q : ℕ)
  | measure (q c : ℕ)
  | reset (q : ℕ)
  | barrier

/-- Whether an instruction is a reset. -/
def Instr.isReset : Instr → Bool
  | .reset _ => true
  | _ => false

/-- Whether an instruction is a measurement. -/
def Instr.isMeasure : Instr → Bool
  | .measure _ _ => true
  | _ => false

/-- The instruction sequence built by the loop body of `create_zeno_circuit`
(`quantum-zeno-effect/main.py` lines 68–90) once `angle_per_step = θ/N` has
been computed: `N` iterations of ry/measure/reset (with a barrier between
iterations), then a final ry and measurement. -/
noncomputable def zenoStagedBody (n : ℕ) (θ : ℝ) : List Instr :=
  ((List.range n).flatMap (fun i =>
    [Instr.ry (θ / n) 0, Instr.measure 0 0, Instr.reset 0] ++
      if i < n - 1 then [Instr.barrier] else [])) ++
  [Instr.ry (θ / n) 0, Instr.measure 0 0]

/-- `create_zeno_circuit` from `quantum-zeno-effect/main.py` (lines 53–90).
Computing `angle_per_step = total_angle / num_measurements` raises
`ZeroDivisionError` in Python when `num_measurements = 0`, hence `Option`. -/
noncomputable def create_zeno_circuit (n : ℕ) (θ : ℝ) : Option (List Instr) :=
  if n = 0 then none else some (zenoStagedBody n θ)

/-- `create_unobserved_circuit` from `quantum-zeno-effect/main.py`
(lines 93–114): one full rotation by `θ`, then one measurement. -/
noncomputable def create_unobserved_circuit (θ : ℝ) : List Instr :=
  [Instr.ry θ 0, Instr.measure 0 0]

/-- `create_survival_zeno_circuit` from `quantum-zeno-effect/main.py`
(lines 117–146): `angle_per_step = θ/(N+1)`; `N` iterations of
ry/measure-to-bit-`i`/barrier, then a final ry and a measurement to bit `N`.
Note: no reset instructions, and the per-step angle is `θ/(N+1)`. -/
noncomputable def create_survival_zeno_circuit (n : ℕ) (θ : ℝ) : List Instr :=
  ((List.range n).flatMap (fun i =>
    [Instr.ry (θ / (n + 1)) 0, Instr.measure 0 i, Instr.barrier])) ++
  [Instr.ry (θ / (n + 1)) 0, Instr.measure 0 n]

/-- C5 counterexample: the survival-tracking variant at `N = 1`, `θ = 1`
rotates by `θ/(N+1) = 1/2` per step — not `θ/N = 1` — and contains no
reset instruction at all, contradicting the claim that every staged circuit
family (including the survival variant) applies `θ/N` per rotation and
consists of (rotation, measure, reset) steps. -/
theorem survival_circuit_not_theta_over_n :
    create_survival_zeno_circuit 1 1 =
      [Instr.ry (1 / 2) 0, Instr.measure 0 0, Instr.barrier,
       Instr.ry (1 / 2) 0, Instr.measure 0 1] ∧
    ((1 : ℝ) / 2 ≠ 1 / 1) ∧
    (create_survival_zeno_circuit 1 1).countP Instr.isReset = 0 := by
  refine ⟨?_, by norm_num, ?_⟩
  · simp only [create_survival_zeno_circuit, List.range_succ, List.range_zero,
      List.nil_append, List.flatMap_cons, List.flatMap_nil, List.append_nil]
    norm_num
  · simp [create_survival_zeno_circuit, List.countP_append, List.countP_cons,
      Instr.isReset]

/-- Helper: `countP` distributes over `flatMap` as a sum. -/
theorem countP_flatMap_eq_sum {α β : Type} (p : β → Bool) (f : α → List β) :
    ∀ l : List α, (l.flatMap f).countP p = (l.map (fun a => (f a).countP p)).sum
  | [] => by simp
  | a :: l => by
    simp [List.flatMap_cons, List.countP_append, countP_flatMap_eq_sum p f l]

/-- C5 amended: for every `N ≥ 1` and `θ`, the staged circuit from
`create_zeno_circuit` applies exactly `θ/N` per rotation, contains exactly
`N` resets and `N+1` measurements, and ends with a final rotation `θ/N`
followed by a measurement (so no reset follows the final measurement);
the survival-tracking variant instead applies `θ/(N+1)` per rotation,
contains no reset at all and `N+1` measurements, and ends with a final
rotation `θ/(N+1)` followed by a measurement. -/
theorem zeno_circuit_structure (n : ℕ) (θ : ℝ) (hn : 1 ≤ n) :
    create_zeno_circuit n θ = some (zenoStagedBody n θ) ∧
    (∀ a q, Instr.ry a q ∈ zenoStagedBody n θ → a = θ / n) ∧
    (zenoStagedBody n θ).countP Instr.isReset = n ∧
    (zenoStagedBody n θ).countP Instr.isMeasure = n + 1 ∧
    (∃ pre, zenoStagedBody n θ = pre ++ [Instr.ry (θ / n) 0, Instr.measure 0 0]) ∧
    (∀ a q, Instr.ry a q ∈ create_survival_zeno_circuit n θ → a = θ / (n + 1)) ∧
    (create_survival_zeno_circuit n θ).countP Instr.isReset = 0 ∧
    (create_survival_zeno_circuit n θ).countP Instr.isMeasure = n + 1 ∧
    (∃ pre, create_survival_zeno_circuit n θ =
        pre ++ [Instr.ry (θ / (n + 1)) 0, Instr.measure 0 n]) := by
  have h0 : n ≠ 0 := Nat.one_le_iff_ne_zero.mp hn
  refine ⟨by simp [create_zeno_circuit, h0], ?_, ?_, ?_, ⟨_, rfl⟩, ?_, ?_, ?_, ⟨_, rfl⟩⟩
  · intro a q ha
    simp only [zenoStagedBody, List.mem_append, List.mem_flatMap, List.mem_cons,
      List.not_mem_nil, or_false] at ha
    rcases ha with ⟨i, -, (h | h | h) | h⟩ | h | h
    · injection h
    · exact absurd h (fun hc => Instr.noConfusion hc)
    · exact absurd h (fun hc => Instr.noConfusion hc)
    · split at h <;> simp at h
    · injection h
    · exact absurd h (fun hc => Instr.noConfusion hc)
  · simp [zenoStagedBody, List.countP_append, countP_flatMap_eq_sum,
      List.countP_cons, Instr.isReset, apply_ite (List.countP Instr.isReset)]
  · simp [zenoStagedBody, List.countP_append, countP_flatMap_eq_sum,
      List.countP_cons, Instr.isMeasure, apply_ite (List.countP Instr.isMeasure)]
  · intro a q ha
    simp only [create_survival_zeno_circuit, List.mem_append, List.mem_flatMap,
      List.mem_cons, List.not_mem_nil, or_false] at ha
    rcases ha with ⟨i, -, h | h | h⟩ | h | h
    · injection h
    · exact absurd h (fun hc => Instr.noConfusion hc)
    · exact absurd h (fun hc => Instr.noConfusion hc)
    · injection h
    · exact absurd h (fun hc => Instr.noConfusion hc)
  · simp [create_survival_zeno_circuit, List.countP_append, countP_flatMap_eq_sum,
      List.countP_cons, Instr.isReset]
  · simp [create_survival_zeno_circuit, List.countP_append, countP_flatMap_eq_sum,
      List.countP_cons, Instr.isMeasure]

/-- Witness for the amended C5 at `N = 2`, `θ = 1`. -/
theorem zeno_circuit_structure_witness :
    (zenoStagedBody 2 1).countP Instr.isReset = 2 ∧
    (zenoStagedBody 2 1).countP Instr.isMeasure = 3 ∧
    (create_survival_zeno_circuit 2 1).countP Instr.isReset = 0 ∧
    (create_survival_zeno_circuit 2 1).countP Instr.isMeasure = 3 :=
  ⟨(zeno_circuit_structure 2 1 (by norm_num)).2.2.1,
   (zeno_circuit_structure 2 1 (by norm_num)).2.2.2.1,
   (zeno_circuit_structure 2 1 (by norm_num)).2.2.2.2.2.2.1,
   (zeno_circuit_structure 2 1 (by norm_num)).2.2.2.2.2.2.2.1⟩

/-- The circuit-generation portion of `run_zeno_experiment`
(`quantum-zeno-effect/main.py` lines 224–237): the unobserved control
circuit, labelled with measurement count 0, is built first by the dedicated
`create_unobserved_circuit`; then one staged circuit per entry of
`measurement_counts` via `create_zeno_circuit`. Any entry that makes
`create_zeno_circuit` raise makes the whole generation raise. -/
noncomputable def zenoStagedCircuits (measurement_counts : List ℕ) (θ : ℝ) :
    Option (List (String × ℕ × List Instr)) :=
  match measurement_counts with
  | [] => some []
  | n :: rest =>
    match create_zeno_circuit n θ with
    | none => none
    | some qc => (zenoStagedCircuits rest θ).map (fun l => ("zeno", n, qc) :: l)

/-- The full circuit list built by `run_zeno_experiment`: the unobserved
control circuit first, then the staged circuits. -/
noncomputable def zeno_experiment_circuits (measurement_counts : List ℕ)
    (θ : ℝ) : Option (List (String × ℕ × List Instr)) :=
  (zenoStagedCircuits measurement_counts θ).map
    (fun staged => ("unobserved", 0, create_unobserved_circuit θ) :: staged)

/-- Helper: when every requested count is at least 1, the staged-circuit
batch generation succeeds and produces exactly the staged bodies. -/
theorem zenoStagedCircuits_eq (θ : ℝ) : ∀ (counts : List ℕ), (∀ n ∈ counts, 1 ≤ n) →
    zenoStagedCircuits counts θ =
      some (counts.map (fun n => ("zeno", n, zenoStagedBody n θ)))
  | [], _ => by simp [zenoStagedCircuits]
  | a :: l, h => by
    have ha : a ≠ 0 := Nat.one_le_iff_ne_zero.mp (h a (by simp))
    have hl := zenoStagedCircuits_eq θ l (fun n hn => h n (by simp [hn]))
    simp [zenoStagedCircuits, create_zeno_circuit, ha, hl]

/-- C6: for any experiment configuration whose requested intermediate
measurement counts are all at least 1 (the pipeline's own configuration is
`[1, 2, 4, 8]`), circuit generation succeeds — the angle-per-step division
`θ/N` in the staged generator is never evaluated at `N = 0` — and the
`N = 0` configuration is routed to the dedicated unobserved single-step
circuit, which heads the generated list. -/
theorem zeno_pipeline_routes_n_zero (counts : List ℕ) (θ : ℝ)
    (h : ∀ n ∈ counts, 1 ≤ n) :
    zeno_experiment_circuits counts θ =
      some (("unobserved", 0, create_unobserved_circuit θ) ::
        counts.map (fun n => ("zeno", n, zenoStagedBody n θ))) := by
  unfold zeno_experiment_circuits
  rw [zenoStagedCircuits_eq θ counts h]
  rfl

/-- Witness for C6 at the pipeline's configuration `[1, 2, 4, 8]`, `θ = 1`. -/
theorem zeno_pipeline_routes_n_zero_witness :
    zeno_experiment_circuits [1, 2, 4, 8] 1 =
      some [("unobserved", 0, create_unobserved_circuit 1),
        ("zeno", 1, zenoStagedBody 1 1), ("zeno", 2, zenoStagedBody 2 1),
        ("zeno", 4, zenoStagedBody 4 1), ("zeno", 8, zenoStagedBody 8 1)] := by
  have h := zeno_pipeline_routes_n_zero [1, 2, 4, 8] 1 (by decide)
  simpa using h

/-! ## Statistics engine: empty-histogram fallback and final-bit marginal -/

/-- `"0" * (n_meas + 1)` from `run_survival_experiment`. -/
def all_zeros (n : ℕ) : String := String.mk (List.replicate (n + 1) '0')

/-- The survival-probability derivation of `run_survival_experiment`
(`quantum-zeno-effect/main.py` lines 345–349): total is the decoded sum,
or the nominal shot count for an empty histogram; the division is guarded
by `total_counts > 0`, so this derivation is total. -/
def survival_prob (counts : Histogram) (n_meas shots : ℕ) : ℚ :=
  let total := histTotal counts shots
  let survival_count := histGet counts (all_zeros n_meas)
  if 0 < total then (survival_count : ℚ) / total else 0

/-- C4: whenever the decoder yields an empty histogram, the consuming code
substitutes the nominal configured shot count as the total and all
bitstring counts are zero, so (for a positive configured shot count, 4096
in the pipeline) the CHSH correlator is defined — it returns `0` rather
than dividing by zero — and the survival derivation returns `0` without
raising. -/
theorem empty_histogram_fallback (shots n : ℕ) (hshots : 0 < shots) :
    histTotal [] shots = shots ∧
    (∀ k, histGet [] k = 0) ∧
    calculate_correlator [] (histTotal [] shots) = some 0 ∧
    survival_prob [] n shots = 0 := by
  have htot : histTotal [] shots = shots := rfl
  refine ⟨htot, fun k => rfl, ?_, ?_⟩
  · simp [calculate_correlator, htot, Nat.pos_iff_ne_zero.mp hshots, histGet]
  · simp [survival_prob, htot, hshots, histGet]

/-- Witness for C4 at the pipeline's nominal shot count 4096 and `N = 8`. -/
theorem empty_histogram_fallback_witness :
    histTotal [] 4096 = 4096 ∧
    histGet [] "00" = 0 ∧
    calculate_correlator [] (histTotal [] 4096) = some 0 ∧
    survival_prob [] 8 4096 = 0 :=
  ⟨(empty_histogram_fallback 4096 8 (by norm_num)).1,
   (empty_histogram_fallback 4096 8 (by norm_num)).2.1 "00",
   (empty_histogram_fallback 4096 8 (by norm_num)).2.2.1,
   (empty_histogram_fallback 4096 8 (by norm_num)).2.2.2⟩

/-- `bitstring[-1] if bitstring else "0"` from `run_zeno_experiment`
(line 265): the last character, or `'0'` for the empty string. -/
def finalBitOf (bitstring : String) : Char :=
  bitstring.data.getLastD '0'

/-- One iteration of the final-bit marginal loop of `run_zeno_experiment`
(lines 262–269): route `count / total_counts` to `prob_0` or `prob_1`
according to the last character. -/
def marginalStep (total : ℕ) (acc : ℚ × ℚ) (e : String × ℕ) : ℚ × ℚ :=
  if finalBitOf e.1 = '0' then (acc.1 + (e.2 : ℚ) / total, acc.2)
  else (acc.1, acc.2 + (e.2 : ℚ) / total)

/-- The accumulated `(prob_0, prob_1)` of the final-bit marginal loop. -/
def marginalPair (counts : Histogram) (total : ℕ) : ℚ × ℚ :=
  counts.foldl (marginalStep total) (0, 0)

/-- The final-bit marginal computation of `run_zeno_experiment`
(lines 258–269). `total_counts` is the decoded sum, or the nominal shot
count for an empty histogram; each loop iteration divides by
`total_counts`, so Python raises `ZeroDivisionError` exactly when the
histogram is non-empty with a zero total. -/
def final_bit_marginal (counts : Histogram) (shots : ℕ) : Option (ℚ × ℚ) :=
  let total := histTotal counts shots
  if counts.isEmpty then some (0, 0)
  else if total = 0 then none
  else some (marginalPair counts total)

/-- Sum of the counts whose bitstring has final bit `'0'`. -/
def sumFinal0 (counts : Histogram) : ℕ :=
  sumValues (counts.filter (fun e => finalBitOf e.1 == '0'))

/-- Sum of the counts whose bitstring has final bit other than `'0'`. -/
def sumFinal1 (counts : Histogram) : ℕ :=
  sumValues (counts.filter (fun e => !(finalBitOf e.1 == '0')))

/-- Helper: closed form of the marginal fold. -/
theorem marginalPair_foldl (total : ℕ) :
    ∀ (l : Histogram) (acc : ℚ × ℚ),
      l.foldl (marginalStep total) acc =
        (acc.1 + (sumFinal0 l : ℚ) / total, acc.2 + (sumFinal1 l : ℚ) / total)
  | [], acc => by simp [sumFinal0, sumFinal1, sumValues]
  | e :: l, acc => by
    rw [List.foldl_cons, marginalPair_foldl total l]
    by_cases h : finalBitOf e.1 = '0' <;>
      simp [marginalStep, h, sumFinal0, sumFinal1, sumValues, List.filter_cons] <;>
      ring

/-- Helper: the two final-bit classes partition the histogram's weight. -/
theorem sumFinal0_add_sumFinal1 :
    ∀ counts : Histogram, sumFinal0 counts + sumFinal1 counts = sumValues counts
  | [] => rfl
  | e :: l => by
    have ih := sumFinal0_add_sumFinal1 l
    by_cases h : finalBitOf e.1 = '0' <;>
      simp [sumFinal0, sumFinal1, sumValues, List.filter_cons, h] at ih ⊢ <;>
      omega

/-- C10 counterexample: a non-empty histogram whose counts sum to zero,
`{"0": 0}`, makes the final-bit marginal loop divide by zero (Python raises
`ZeroDivisionError`), so no `prob_0`/`prob_1` in `[0,1]` summing to 1 is
produced for this non-empty histogram. -/
theorem final_bit_marginal_zero_total_raises :
    final_bit_marginal [("0", 0)] 4096 = none ∧
    ([("0", 0)] : Histogram) ≠ [] := by
  exact ⟨rfl, by simp⟩

/-- C10 amended: for every histogram fed to the final-bit marginal
computation: if the histogram is non-empty and its total (the sum of its
counts) is positive, the computed `prob_0` and `prob_1` each lie in `[0,1]`
and sum exactly to 1; a non-empty histogram with zero total makes the
computation raise; if the histogram is empty, both are 0; and a key that is
the empty string is assigned final bit `'0'`, hence counted toward
`prob_0`. -/
theorem final_bit_marginal_props (counts : Histogram) (shots : ℕ)
    (hne : counts ≠ []) (hpos : 0 < sumValues counts) :
    final_bit_marginal counts shots =
      some (marginalPair counts (sumValues counts)) ∧
    0 ≤ (marginalPair counts (sumValues counts)).1 ∧
    (marginalPair counts (sumValues counts)).1 ≤ 1 ∧
    0 ≤ (marginalPair counts (sumValues counts)).2 ∧
    (marginalPair counts (sumValues counts)).2 ≤ 1 ∧
    (marginalPair counts (sumValues counts)).1 +
      (marginalPair counts (sumValues counts)).2 = 1 ∧
    final_bit_marginal [] shots = some (0, 0) ∧
    finalBitOf "" = '0' ∧
    (∀ c acc, marginalStep (sumValues counts) acc ("", c) =
      (acc.1 + (c : ℚ) / sumValues counts, acc.2)) := by
  have hnempty : counts.isEmpty = false := by
    cases counts with
    | nil => exact absurd rfl hne
    | cons e l => rfl
  have htotal : histTotal counts shots = sumValues counts := by
    simp [histTotal, hnempty]
  have hq : (0 : ℚ) < (sumValues counts : ℚ) := by exact_mod_cast hpos
  have hmp : marginalPair counts (sumValues counts) =
      ((sumFinal0 counts : ℚ) / sumValues counts,
       (sumFinal1 counts : ℚ) / sumValues counts) := by
    rw [marginalPair, marginalPair_foldl]
    simp
  have hsum : (sumFinal0 counts : ℚ) + (sumFinal1 counts : ℚ) =
      (sumValues counts : ℚ) := by
    exact_mod_cast congrArg (Nat.cast (R := ℚ)) (sumFinal0_add_sumFinal1 counts)
  have h0le : (0 : ℚ) ≤ (sumFinal0 counts : ℚ) / sumValues counts :=
    div_nonneg (by positivity) (le_of_lt hq)
  have h1le : (0 : ℚ) ≤ (sumFinal1 counts : ℚ) / sumValues counts :=
    div_nonneg (by positivity) (le_of_lt hq)
  have hadd : (sumFinal0 counts : ℚ) / sumValues counts +
      (sumFinal1 counts : ℚ) / sumValues counts = 1 := by
    rw [div_add_div_same, hsum, div_self (ne_of_gt hq)]
  refine ⟨?_, ?_, ?_, ?_, ?_, ?_, rfl, rfl, ?_⟩
  · simp [final_bit_marginal, hnempty, htotal, Nat.pos_iff_ne_zero.mp hpos]
  · rw [hmp]; exact h0le
  · rw [hmp]; simp only
    nlinarith [h0le, h1le, hadd]
  · rw [hmp]; exact h1le
  · rw [hmp]; simp only
    nlinarith [h0le, h1le, hadd]
  · rw [hmp]; simp only
    exact hadd
  · intro c acc
    simp [marginalStep, finalBitOf]

/-- Witness for the amended C10 at the histogram `{"01": 3, "1": 1}`. -/
theorem final_bit_marginal_props_witness :
    final_bit_marginal [("01", 3), ("1", 1)] 4096 =
      some (marginalPair [("01", 3), ("1", 1)] (sumValues [("01", 3), ("1", 1)])) ∧
    (marginalPair [("01", 3), ("1", 1)] (sumValues [("01", 3), ("1", 1)])).1 +
      (marginalPair [("01", 3), ("1", 1)] (sumValues [("01", 3), ("1", 1)])).2 = 1 ∧
    marginalStep (sumValues [("01", 3), ("1", 1)]) (0, 0) ("", 7) =
      ((7 : ℚ) / sumValues [("01", 3), ("1", 1)], 0) := by
  refine ⟨(final_bit_marginal_props [("01", 3), ("1", 1)] 4096 (by simp) (by decide)).1,
    (final_bit_marginal_props [("01", 3), ("1", 1)] 4096 (by simp) (by decide)).2.2.2.2.2.1,
    ?_⟩
  have h := (final_bit_marginal_props [("01", 3), ("1", 1)] 4096 (by simp)
    (by decide)).2.2.2.2.2.2.2.2 7 (0, 0)
  simpa using h

/-! ## Zeno classifier -/

/-- Verdict categories printed by the Zeno `analyze_results`
(`quantum-zeno-effect/main.py` lines 432–442): `[OK] ZENO EFFECT OBSERVED`,
`[~] WEAK ZENO EFFECT`, `[X] ZENO EFFECT NOT CLEARLY OBSERVED`. -/
inductive ZenoVerdict : Type
  | observed
  | weak
  | notObserved
  deriving DecidableEq

/-- The margin used by the Zeno classifier. In the source this is the
literal `0.05` inside `analyze_results` (line 432), not a configurable
parameter; the float literal is modelled as the exact rational `1/20`. -/
def zeno_margin : ℚ := 1 / 20

/-- The decision logic of the Zeno `analyze_results` (lines 417–442):
`max_zeno` is the zeno result with the highest measured `prob_0`
(`max(zeno_results, key=prob_0)`); the verdict compares it against the
unobserved measured probability. If there are no zeno results, no verdict
is printed. -/
def zeno_verdict (unobs_p0 : ℚ) (zeno_p0s : List ℚ) : Option ZenoVerdict :=
  match zeno_p0s.max? with
  | none => none
  | some m =>
    some (if m > unobs_p0 + zeno_margin then ZenoVerdict.observed
      else if m > unobs_p0 then ZenoVerdict.weak else ZenoVerdict.notObserved)

/-- C7 (behavioural part): the classifier emits the
zeno-effect-observed verdict iff the best measured ground-state probability
among the checkpointed runs exceeds the unobserved-case measured
probability by more than the margin, and that margin is the fixed value
`0.05`. (In the source the margin is a hardcoded literal inside
`analyze_results`, not exposed as configuration.) -/
theorem zeno_classifier_threshold (unobs : ℚ) (ps : List ℚ) (m : ℚ)
    (hm : ps.max? = some m) :
    (zeno_verdict unobs ps = some ZenoVerdict.observed ↔
      m > unobs + zeno_margin) ∧
    zeno_margin = 1 / 20 := by
  refine ⟨?_, rfl⟩
  unfold zeno_verdict
  rw [hm]
  by_cases hA : m > unobs + zeno_margin
  · simp [hA]
  · by_cases hB : m > unobs <;> simp [hA, hB]

/-- Witness for C7 at `unobs = 1/2`, measured zeno probabilities `[3/5]`. -/
theorem zeno_classifier_threshold_witness :
    (zeno_verdict (1/2) [3/5] = some ZenoVerdict.observed ↔
      (3/5 : ℚ) > 1/2 + zeno_margin) ∧
    zeno_margin = 1 / 20 :=
  zeno_classifier_threshold (1/2) [3/5] (3/5) rfl

/-! ## GHZ parity classification -/

/-- Python `k.count("1")`: number of `'1'` characters in the outcome. -/
def countOnes (s : String) : ℕ := s.data.count '1'

/-- `sum(counts.get(k, 0) for k in counts if p k)`: the summed weight of
the keys satisfying `p` (as in `ghz-paradox/main.py` lines 306–307 and
323–326). -/
def parityKeySum (counts : Histogram) (p : String → Bool) : ℕ :=
  (((counts.map Prod.fst).filter p).map (fun k => histGet counts k)).sum

/-- `even_count` from the GHZ `analyze_results` (line 306). -/
def even_parity_count (counts : Histogram) : ℕ :=
  parityKeySum counts (fun k => countOnes k % 2 == 0)

/-- `odd_count` from the GHZ `analyze_results` (line 307). -/
def odd_parity_count (counts : Histogram) : ℕ :=
  parityKeySum counts (fun k => countOnes k % 2 == 1)

/-- The even/odd parity fractions of the total computed at lines 323–326
(`... / results[basis]["total"]`); Python raises on a zero total. -/
def parity_fractions (counts : Histogram) (total : ℕ) : Option (ℚ × ℚ) :=
  if total = 0 then none
  else some ((even_parity_count counts : ℚ) / total,
    (odd_parity_count counts : ℚ) / total)

/-- Helper: looking up the first entry's own key returns its value. -/
theorem histGet_cons_self (e : String × ℕ) (l : Histogram) :
    histGet (e :: l) e.1 = e.2 := by
  simp [histGet, List.find?]

/-- Helper: looking up a different key skips the first entry. -/
theorem histGet_cons_ne (e : String × ℕ) (l : Histogram) (k : String)
    (h : e.1 ≠ k) : histGet (e :: l) k = histGet l k := by
  have hb : (e.1 == k) = false := beq_eq_false_iff_ne.mpr h
  simp [histGet, List.find?, hb]

/-- Helper: with pairwise-distinct keys (the Python `dict` invariant), the
per-key comprehension sum equals the summed weight of the filtered
entries. -/
theorem parityKeySum_eq (p : String → Bool) :
    ∀ (counts : Histogram), (counts.map Prod.fst).Nodup →
      parityKeySum counts p = sumValues (counts.filter (fun e => p e.1))
  | [], _ => rfl
  | e :: l, h => by
    simp only [List.map_cons, List.nodup_cons] at h
    obtain ⟨he, hl⟩ := h
    have hmap : ((l.map Prod.fst).filter p).map (fun k => histGet (e :: l) k) =
        ((l.map Prod.fst).filter p).map (fun k => histGet l k) := by
      apply List.map_congr_left
      intro k hk
      exact histGet_cons_ne e l k (fun hek => he (hek ▸ List.mem_of_mem_filter hk))
    have ih := parityKeySum_eq p l hl
    simp only [parityKeySum] at ih
    by_cases hp : p e.1
    · simp only [parityKeySum, List.map_cons, List.filter_cons, hp, if_true,
        List.map_cons, List.sum_cons, hmap, histGet_cons_self, ih]
      simp only [sumValues, List.filter_cons, hp, if_true, List.map_cons,
        List.sum_cons]
    · simp only [parityKeySum, List.map_cons, List.filter_cons, hp,
        Bool.false_eq_true, if_false, hmap, ih]

/-- Helper: filtering by a predicate and by its negation partitions the
summed weight. -/
theorem sumValues_filter_partition (p : String × ℕ → Bool) :
    ∀ l : Histogram,
      sumValues (l.filter p) + sumValues (l.filter (fun e => !p e)) = sumValues l
  | [] => rfl
  | e :: l => by
    have ih := sumValues_filter_partition p l
    by_cases h : p e <;>
      simp [sumValues, List.filter_cons, h] at ih ⊢ <;> omega

/-- C8: the parity classification assigns each outcome's count to exactly
one of the two classes — even parity when the number of 1-bits is even,
odd when odd — so the two class weights partition the histogram's weight
(given the dict invariant of pairwise-distinct keys), the reported
fractions are each class's weight over the total and sum to
`weight/total`; and the histogram `{"000":100}` with total 100 yields
even-parity fraction 1 and odd-parity fraction exactly 0. -/
theorem parity_partition (counts : Histogram) (total : ℕ)
    (hnd : (counts.map Prod.fst).Nodup) (ht : total ≠ 0) :
    even_parity_count counts + odd_parity_count counts = sumValues counts ∧
    parity_fractions counts total =
      some ((even_parity_count counts : ℚ) / total,
        (odd_parity_count counts : ℚ) / total) ∧
    (even_parity_count counts : ℚ) / total +
      (odd_parity_count counts : ℚ) / total = (sumValues counts : ℚ) / total ∧
    parity_fractions [("000", 100)] 100 = some (1, 0) := by
  have hfil : counts.filter (fun e => countOnes e.1 % 2 == 1) =
      counts.filter (fun e => !(countOnes e.1 % 2 == 0)) := by
    apply List.filter_congr
    intro e _
    rcases Nat.mod_two_eq_zero_or_one (countOnes e.1) with h | h <;> simp [h]
  have h1 : even_parity_count counts + odd_parity_count counts =
      sumValues counts := by
    rw [even_parity_count, odd_parity_count, parityKeySum_eq _ _ hnd,
      parityKeySum_eq _ _ hnd, hfil]
    exact sumValues_filter_partition _ counts
  refine ⟨h1, by simp [parity_fractions, ht], ?_, ?_⟩
  · rw [div_add_div_same]
    congr 1
    exact_mod_cast h1
  · have heven : even_parity_count [("000", 100)] = 100 := rfl
    have hodd : odd_parity_count [("000", 100)] = 0 := rfl
    norm_num [parity_fractions, heven, hodd]

/-- Witness for C8 at the histogram `{"000": 60, "001": 40}`, total 100. -/
theorem parity_partition_witness :
    even_parity_count [("000", 60), ("001", 40)] +
      odd_parity_count [("000", 60), ("001", 40)] =
      sumValues [("000", 60), ("001", 40)] ∧
    parity_fractions [("000", 100)] 100 = some (1, 0) :=
  ⟨(parity_partition [("000", 60), ("001", 40)] 100 (by decide) (by decide)).1,
   (parity_partition [("000", 60), ("001", 40)] 100 (by decide) (by decide)).2.2.2⟩

/-! ## Quantum pigeonhole pair-sharing analysis -/

/-- Python `outcome.zfill(3)`: left-pad with `'0'` to length 3. -/
def zfill3 (s : String) : String :=
  String.mk (List.replicate (3 - s.data.length) '0' ++ s.data)

/-- The four named fractions returned by `analyze_sharing`
(`quantum-pigeonhole/main.py` lines 267–272). -/
structure SharingResult : Type where
  pair01 : ℚ
  pair12 : ℚ
  pair02 : ℚ
  anyShare : ℚ
  deriving DecidableEq

/-- One iteration of the `analyze_sharing` loop (lines 253–265): pad the
outcome to 3 bits, read the three positions, and add the count to each
pair-share accumulator whose positions agree, and to the "any" accumulator
when at least one pair agrees. -/
def sharingStep (acc : ℕ × ℕ × ℕ × ℕ) (e : String × ℕ) : ℕ × ℕ × ℕ × ℕ :=
  let o := zfill3 e.1
  let p0 := o.data.getD 0 ' '
  let p1 := o.data.getD 1 ' '
  let p2 := o.data.getD 2 ' '
  (acc.1 + if p0 = p1 then e.2 else 0,
   acc.2.1 + if p1 = p2 then e.2 else 0,
   acc.2.2.1 + if p0 = p2 then e.2 else 0,
   acc.2.2.2 + if p0 = p1 ∨ p1 = p2 ∨ p0 = p2 then e.2 else 0)

/-- `analyze_sharing` from `quantum-pigeonhole/main.py` (lines 246–272).
The final four divisions by `total` raise in Python when `total = 0`. -/
def analyze_sharing (counts : Histogram) (total : ℕ) : Option SharingResult :=
  let s := counts.foldl sharingStep (0, 0, 0, 0)
  if total = 0 then none
  else some ⟨(s.1 : ℚ) / total, (s.2.1 : ℚ) / total,
    (s.2.2.1 : ℚ) / total, (s.2.2.2 : ℚ) / total⟩

/-- The classical histogram uniformly spread over all 8 three-bit
outcomes with equal weight `w`. -/
def uniform8 (w : ℕ) : Histogram :=
  [("000", w), ("001", w), ("010", w), ("011", w),
   ("100", w), ("101", w), ("110", w), ("111", w)]

/-- C9: for a histogram uniformly spread over all 8 three-bit outcomes
with equal positive weight `w` (total `8w`), the pair-sharing analysis
yields 1/2 for each unordered pair and an "at least one pair equal"
fraction of exactly 1. -/
theorem pigeonhole_uniform_any_one (w : ℕ) (hw : 0 < w) :
    analyze_sharing (uniform8 w) (8 * w) =
      some ⟨1 / 2, 1 / 2, 1 / 2, 1⟩ := by
  have e00 : (('0' : Char) = '0') = True := by simp
  have e11 : (('1' : Char) = '1') = True := by simp
  have e01 : (('0' : Char) = '1') = False := by simp
  have e10 : (('1' : Char) = '0') = False := by simp
  have hfold : (uniform8 w).foldl sharingStep (0, 0, 0, 0) =
      (4 * w, 4 * w, 4 * w, 8 * w) := by
    simp only [uniform8, List.foldl_cons, List.foldl_nil, sharingStep, zfill3]
    norm_num [e00, e11, e01, e10]
    omega
  have h8 : (8 * w : ℕ) ≠ 0 := by omega
  have h8q : ((8 * w : ℕ) : ℚ) ≠ 0 := Nat.cast_ne_zero.mpr h8
  have hhalf : ((4 * w : ℕ) : ℚ) / ((8 * w : ℕ) : ℚ) = 1 / 2 := by
    rw [div_eq_div_iff h8q (by norm_num)]
    push_cast
    ring
  have hone : ((8 * w : ℕ) : ℚ) / ((8 * w : ℕ) : ℚ) = 1 := div_self h8q
  simp only [analyze_sharing, hfold, if_neg h8]
  simp only [hhalf, hone]

/-- Witness for C9 at weight 125 per outcome (total 1000). -/
theorem pigeonhole_uniform_any_one_witness :
    analyze_sharing (uniform8 125) (8 * 125) =
      some ⟨1 / 2, 1 / 2, 1 / 2, 1⟩ :=
  pigeonhole_uniform_any_one 125 (by norm_num)

/-! ## Result decoder (`extract_counts`)

The decoder in `chsh-bell/main.py` (lines 108–135) and
`quantum-zeno-effect/main.py` (lines 149–190) probes an opaque result
handle's `data` object by attribute name. An attribute of that object is
modelled by `AttrVal`: the Python value `None`, a value without a
`get_counts` accessor, or a value whose `get_counts()` returns a
histogram. The handle's `data` is the named-attribute list `ResultData`;
`getattr(data, n, None)` is `lookupAttr`, and `dir(data)` enumerates the
attribute names in sorted order. -/

/-- A field of the result handle's `data` object. -/
inductive AttrVal : Type
  | pyNone
  | plain
  | histo (h : Histogram)
  deriving DecidableEq

/-- Whether the field value exposes a `get_counts` accessor. -/
def AttrVal.isHisto : AttrVal → Bool
  | .histo _ => true
  | _ => false

/-- The named attributes of `pub_result.data`. -/
abbrev ResultData := List (String × AttrVal)

/-- `getattr(pub_result.data, name, None)`: `none` when absent. -/
def lookupAttr (d : ResultData) (name : String) : Option AttrVal :=
  (d.find? (fun e => e.1 == name)).map Prod.snd

/-- Python code-point comparison of strings (used by `sorted`/`dir`). -/
def lexLe : List Char → List Char → Bool
  | [], _ => true
  | _ :: _, [] => false
  | a :: as, b :: bs =>
    if a.toNat < b.toNat then true
    else if b.toNat < a.toNat then false
    else lexLe as bs

/-- Insertion step of the name sort. -/
def insertSorted (s : String) : List String → List String
  | [] => [s]
  | t :: ts => if lexLe s.data t.data then s :: t :: ts else t :: insertSorted s ts

/-- Insertion sort by code-point order. -/
def sortNames : List String → List String
  | [] => []
  | s :: ss => insertSorted s (sortNames ss)

/-- Python `attr.startswith("_")`. -/
def startsUnderscore (s : String) : Bool := s.data.head? == some '_'

/-- `dir(pub_result.data)`: the attribute names, deduplicated and sorted. -/
def dirNames (d : ResultData) : List String :=
  sortNames (d.map Prod.fst).eraseDups

/-- Decoder step 1: look up the primary classical-register label
(`circuit.cregs[0].name if circuit.cregs else "c"`). A present field
lacking the accessor raises `AttributeError`, which is caught, so every
failure falls through. -/
def decodePrimary (d : ResultData) (cregs : List String) : Option Histogram :=
  match lookupAttr d (cregs.headD "c") with
  | some (.histo h) => some h
  | _ => none

/-- Decoder step 2: the `for name in ["meas", "c", "c0"]` loop. The whole
loop sits in one `try`, so the first present, non-`None` field lacking the
accessor raises `AttributeError` and abandons the remaining labels. -/
def decodeConventional (d : ResultData) : List String → Option Histogram
  | [] => none
  | n :: ns =>
    match lookupAttr d n with
    | some (.histo h) => some h
    | some .plain => none
    | _ => decodeConventional d ns

/-- Decoder step 3: the generic scan over `dir(pub_result.data)`, skipping
underscore-prefixed names, returning the first field with a `get_counts`
accessor. -/
def decodeScan (d : ResultData) : Option Histogram :=
  (dirNames d).findSome? (fun n =>
    if startsUnderscore n then none
    else
      match lookupAttr d n with
      | some (.histo h) => some h
      | _ => none)

/-- `extract_counts` from `chsh-bell/main.py` lines 108–135 (identical in
`quantum-zeno-effect/main.py` lines 149–190): the three probing stages in
order, else the empty mapping. All exceptions are caught, so the function
is total. -/
def extract_counts (d : ResultData) (cregs : List String) : Histogram :=
  match decodePrimary d cregs with
  | some h => h
  | none =>
    match decodeConventional d ["meas", "c", "c0"] with
    | some h => h
    | none =>
      match decodeScan d with
      | some h => h
      | none => []

/-- Modelled from the spec: the ordered fallback chain the C3 claim
describes, in which the conventional fallback labels `"meas"`, `"c"`,
`"c0"` are each tried independently in order — a present field without a
usable accessor is merely skipped — before falling back to the generic
scan. -/
def extract_counts_claimed (d : ResultData) (cregs : List String) : Histogram :=
  match decodePrimary d cregs with
  | some h => h
  | none =>
    match ["meas", "c", "c0"].findSome? (fun n =>
        match lookupAttr d n with
        | some (.histo h) => some h
        | _ => none) with
    | some h => h
    | none => (decodeScan d).getD []

/-- A result handle whose `data` has a `meas` field without a `get_counts`
accessor, a `c0` field holding the histogram `{"0": 1}`, and an `aux`
field holding the histogram `{"1": 2}`; the circuit's primary register is
`"qout"`. -/
def demoData : ResultData :=
  [("meas", AttrVal.plain), ("c0", AttrVal.histo [("0", 1)]),
   ("aux", AttrVal.histo [("1", 2)])]

/-- C3 counterexample: on `demoData` the claimed chain would recover
`{"0": 1}` from the conventional label `c0` (the first success in the
claimed order), but the code's `AttributeError` on `meas` abandons the
whole conventional stage and the generic scan then returns `{"1": 2}`
from the alphabetically earlier field `aux`. -/
theorem decoder_fallback_counterexample :
    extract_counts demoData ["qout"] = [("1", 2)] ∧
    extract_counts_claimed demoData ["qout"] = [("0", 1)] ∧
    ([("1", 2)] : Histogram) ≠ [("0", 1)] := by
  refine ⟨rfl, rfl, by simp⟩

/-- Helper: if no field of the handle exposes a histogram accessor, no
lookup can produce one. -/
theorem lookupAttr_no_histo {d : ResultData}
    (hno : ∀ p ∈ d, p.2.isHisto = false) (n : String) (h : Histogram) :
    lookupAttr d n ≠ some (AttrVal.histo h) := by
  intro hc
  unfold lookupAttr at hc
  cases hfind : d.find? (fun e => e.1 == n) with
  | none => rw [hfind] at hc; simp at hc
  | some e =>
    rw [hfind] at hc
    simp only [Option.map_some', Option.some.injEq] at hc
    have hmem := hno e (List.mem_of_find?_eq_some hfind)
    rw [hc] at hmem
    simp [AttrVal.isHisto] at hmem

/-- C3 amended: the decoder tries the primary-register lookup first and
returns its histogram on success; the conventional labels `"meas"`, `"c"`,
`"c0"` are tried in order, but that stage is abandoned at the first
present non-`None` field lacking the accessor (its `AttributeError` exits
the loop), after which the generic scan — over all non-underscore fields
in sorted name order — decides the result; decoding is total (never
raises), and when the handle exposes nothing usable it returns the empty
mapping. -/
theorem decoder_fallback_amended (d : ResultData) (cregs : List String) :
    (∀ h, lookupAttr d (cregs.headD "c") = some (AttrVal.histo h) →
      extract_counts d cregs = h) ∧
    ((∀ p ∈ d, p.2.isHisto = false) → extract_counts d cregs = []) ∧
    (decodePrimary d cregs = none → lookupAttr d "meas" = some AttrVal.plain →
      extract_counts d cregs = (decodeScan d).getD []) := by
  refine ⟨?_, ?_, ?_⟩
  · intro h hl
    have hp : decodePrimary d cregs = some h := by
      unfold decodePrimary
      rw [hl]
    simp [extract_counts, hp]
  · intro hno
    have hprim : decodePrimary d cregs = none := by
      unfold decodePrimary
      cases hl : lookupAttr d (cregs.headD "c") with
      | none => rfl
      | some v =>
        cases v with
        | histo h => exact absurd hl (lookupAttr_no_histo hno _ h)
        | pyNone => rfl
        | plain => rfl
    have hconv : ∀ ns, decodeConventional d ns = none := by
      intro ns
      induction ns with
      | nil => rfl
      | cons n ns ih =>
        unfold decodeConventional
        cases hl : lookupAttr d n with
        | none => exact ih
        | some v =>
          cases v with
          | histo h => exact absurd hl (lookupAttr_no_histo hno _ h)
          | pyNone => exact ih
          | plain => rfl
    have hscan : decodeScan d = none := by
      unfold decodeScan
      rw [List.findSome?_eq_none_iff]
      intro n hn
      by_cases hu : startsUnderscore n = true
      · simp [hu]
      · simp only [hu, Bool.false_eq_true, if_false]
        cases hl : lookupAttr d n with
        | none => rfl
        | some v =>
          cases v with
          | histo h => exact absurd hl (lookupAttr_no_histo hno _ h)
          | pyNone => rfl
          | plain => rfl
    simp [extract_counts, hprim, hconv, hscan]
  · intro hp hm
    have hconv : decodeConventional d ["meas", "c", "c0"] = none := by
      unfold decodeConventional
      rw [hm]
    cases hs : decodeScan d <;> simp [extract_counts, hp, hconv, hs]

/-- Witness for the amended C3: a primary-register success, a handle with
nothing usable, and `demoData`'s abandoned conventional stage. -/
theorem decoder_fallback_amended_witness :
    extract_counts [("c", AttrVal.histo [("0", 5)])] [] = [("0", 5)] ∧
    extract_counts [("meas", AttrVal.plain), ("other", AttrVal.pyNone)] ["q"] = [] ∧
    extract_counts demoData ["qout"] = (decodeScan demoData).getD [] :=
  ⟨(decoder_fallback_amended [("c", AttrVal.histo [("0", 5)])] []).1 [("0", 5)] rfl,
   (decoder_fallback_amended [("meas", AttrVal.plain), ("other", AttrVal.pyNone)]
      ["q"]).2.1 (by decide),
   (decoder_fallback_amended demoData ["qout"]).2.2 rfl rfl⟩
